import Mathlib

/-!
Verification of the media-organizer duplicate/merge/cache engine.

The definitions below are a shallow embedding of the JavaScript source
(PhotoOrganizer in organizer.js, BatchProcessor in batch-processor.js).
Filesystem reads are passed in as explicit data (file sizes, metadata
extraction outcomes, modification times, an existence predicate), the
external md5-of-JSON hash is a function parameter, and fallible code
returns Option or Except.
-/

namespace MediaOrg

/-! ### Decimal rendering of numbers (models the JavaScript template
interpolation of an integer into a string, as in the fingerprint
templates and the zero-padded counters). -/

/-- One decimal digit as a character, as JavaScript renders it. -/
def digitCh (d : Nat) : Char := Char.ofNat (48 + d)

/-- Little-endian decimal digits of a positive number, with fuel to
keep the recursion structural; the fuel never runs out when it starts
at the number itself. -/
def toDigitsRevAux : Nat → Nat → List Char
  | _, 0 => []
  | 0, _ + 1 => []
  | fuel + 1, n + 1 => digitCh ((n + 1) % 10) :: toDigitsRevAux fuel ((n + 1) / 10)

/-- Little-endian decimal digits of a positive number. -/
def toDigitsRev (n : Nat) : List Char := toDigitsRevAux n n

/-- Decimal string of a number, as JavaScript String(n) for a
nonnegative integer. -/
def natToString (n : Nat) : String :=
  if n = 0 then "0" else ⟨(toDigitsRev n).reverse⟩

/-- Numeric value of a little-endian digit-character list; inverse of
toDigitsRev, used only to prove injectivity of the rendering. -/
def fromDigitsRev : List Char → Nat
  | [] => 0
  | c :: cs => (c.toNat - 48) + 10 * fromDigitsRev cs

theorem fromDigitsRev_toDigitsRevAux :
    ∀ (fuel n : Nat), n ≤ fuel → fromDigitsRev (toDigitsRevAux fuel n) = n
  | _, 0, _ => by cases ‹Nat› <;> rfl
  | 0, n + 1, h => by omega
  | fuel + 1, n + 1, h => by
    have hdiv : (n + 1) / 10 < n + 1 := Nat.div_lt_self (Nat.succ_pos n) (by decide)
    rw [toDigitsRevAux, fromDigitsRev,
      fromDigitsRev_toDigitsRevAux fuel ((n + 1) / 10) (by omega)]
    have hlt : (n + 1) % 10 < 10 := Nat.mod_lt _ (by decide)
    have hch : (digitCh ((n + 1) % 10)).toNat - 48 = (n + 1) % 10 := by
      interval_cases h2 : (n + 1) % 10 <;> decide
    rw [hch]
    exact Nat.mod_add_div (n + 1) 10

theorem fromDigitsRev_toDigitsRev (n : Nat) :
    fromDigitsRev (toDigitsRev n) = n :=
  fromDigitsRev_toDigitsRevAux n n (Nat.le_refl n)

theorem toDigitsRev_inj {a b : Nat} (h : toDigitsRev a = toDigitsRev b) :
    a = b := by
  have := fromDigitsRev_toDigitsRev a
  rw [h, fromDigitsRev_toDigitsRev] at this
  exact this.symm

theorem natToString_inj {a b : Nat} (h : natToString a = natToString b) :
    a = b := by
  unfold natToString at h
  by_cases ha : a = 0 <;> by_cases hb : b = 0 <;> simp [ha, hb] at h ⊢
  · -- a = 0, b ≠ 0: "0" has data ['0'], so toDigitsRev b reverses to ['0']
    exfalso
    have hdata : ("0" : String).data = (toDigitsRev b).reverse :=
      congrArg String.data h
    have hrev : toDigitsRev b = ['0'] := by
      have := congrArg List.reverse hdata
      simpa using this.symm
    have := fromDigitsRev_toDigitsRev b
    rw [hrev] at this
    simp [fromDigitsRev] at this
    exact hb this.symm
  · exfalso
    have hdata : (toDigitsRev a).reverse = ("0" : String).data :=
      congrArg String.data h
    have hrev : toDigitsRev a = ['0'] := by
      have := congrArg List.reverse hdata
      simpa using this
    have := fromDigitsRev_toDigitsRev a
    rw [hrev] at this
    simp [fromDigitsRev] at this
    exact ha this.symm
  · have hdata := congrArg String.data h
    simp only at hdata
    have : toDigitsRev a = toDigitsRev b :=
      List.reverse_injective hdata
    exact toDigitsRev_inj this

theorem toDigitsRevAux_mem_digit :
    ∀ (fuel n : Nat) (c : Char), c ∈ toDigitsRevAux fuel n →
      ∃ d, d < 10 ∧ c = digitCh d
  | fuel, 0, c, h => by cases fuel <;> simp [toDigitsRevAux] at h
  | 0, n + 1, c, h => by simp [toDigitsRevAux] at h
  | fuel + 1, n + 1, c, h => by
    rw [toDigitsRevAux] at h
    rcases List.mem_cons.mp h with h1 | h2
    · exact ⟨(n + 1) % 10, Nat.mod_lt _ (by decide), h1⟩
    · exact toDigitsRevAux_mem_digit fuel ((n + 1) / 10) c h2

/-- Characters produced by the decimal rendering are decimal digits. -/
theorem toDigitsRev_mem_digit {n : Nat} {c : Char}
    (h : c ∈ toDigitsRev n) : ∃ d, d < 10 ∧ c = digitCh d :=
  toDigitsRevAux_mem_digit n n c h

theorem natToString_no_dash (n : Nat) :
    ∀ c ∈ (natToString n).data, c ≠ '-' := by
  intro c hc
  unfold natToString at hc
  by_cases hn : n = 0
  · simp [hn] at hc
    simp [hc]
  · simp [hn] at hc
    obtain ⟨d, hd, rfl⟩ := toDigitsRev_mem_digit hc
    interval_cases d <;> decide

/-! ### Fingerprint Generator (organizer.js: createFileFingerprint,
createVideoFingerprint, validateAndCreateDate). -/

/-- The metadata fields the fingerprint reads from the exif parser.
Field values are modelled by their JSON scalar rendering. -/
structure ExifData where
  make : Option String
  model : Option String
  dateTime : Option String
  dateTimeOriginal : Option String
  createDate : Option String
  orientation : Option String
  exposureTime : Option String
  fNumber : Option String
  iso : Option String
  focalLength : Option String
  flash : Option String
  whiteBalance : Option String
  imageWidth : Option String
  exifImageWidth : Option String
  imageHeight : Option String
  exifImageHeight : Option String
deriving DecidableEq

/-- Outcome of the exif extraction at the fingerprint call site: the
parser threw, returned no data, or returned a metadata object. -/
inductive MetaResult where
  | err
  | null
  | parsed (e : ExifData)
deriving DecidableEq

/-- The normalized, ordered subset of capture attributes the source
selects (relevantExif), with the JavaScript or-chains for the date and
dimension fields. -/
def relevantExif (e : ExifData) : List (String × Option String) :=
  [("make", e.make),
   ("model", e.model),
   ("dateTime", (e.dateTime.orElse fun _ =>
      (e.dateTimeOriginal.orElse fun _ => e.createDate))),
   ("orientation", e.orientation),
   ("exposureTime", e.exposureTime),
   ("fNumber", e.fNumber),
   ("iso", e.iso),
   ("focalLength", e.focalLength),
   ("flash", e.flash),
   ("whiteBalance", e.whiteBalance),
   ("imageWidth", (e.imageWidth.orElse fun _ => e.exifImageWidth)),
   ("imageHeight", (e.imageHeight.orElse fun _ => e.exifImageHeight))]

/-- Drop the absent fields before hashing (cleanExif). -/
def cleanExif (e : ExifData) : List (String × String) :=
  (relevantExif e).filterMap fun kv => kv.2.map fun v => (kv.1, v)

/-- createFileFingerprint: byte size, a dash, then the md5 of the
cleaned metadata, or the fixed sentinel when extraction failed or
produced nothing.  The external md5-of-JSON digest is the function
parameter md5. -/
def createFileFingerprint (md5 : List (String × String) → String)
    (fileSize : Nat) (meta : MetaResult) : String :=
  let exifHash :=
    match meta with
    | .err => "no-exif"
    | .null => "no-exif"
    | .parsed e => md5 (cleanExif e)
  natToString fileSize ++ "-" ++ exifHash

def isDigitCh (c : Char) : Bool := decide ('0' ≤ c) && decide (c ≤ '9')

def digitVal (c : Char) : Nat := c.toNat - 48

/-- Anchored match of a video file stem against the source regex for
YYYY-MM-DD_NNN names: four digits, dash, two digits, dash, two digits,
underscore, then one or more digits to the end.  Returns the numeric
year, month and day and the ten date characters. -/
def matchVideoStem : List Char → Option (Nat × Nat × Nat × List Char)
  | y1 :: y2 :: y3 :: y4 :: '-' :: m1 :: m2 :: '-' :: d1 :: d2 :: '_' :: rest =>
    if isDigitCh y1 && isDigitCh y2 && isDigitCh y3 && isDigitCh y4 &&
       isDigitCh m1 && isDigitCh m2 && isDigitCh d1 && isDigitCh d2 &&
       !rest.isEmpty && rest.all isDigitCh
    then some (digitVal y1 * 1000 + digitVal y2 * 100 + digitVal y3 * 10 + digitVal y4,
               digitVal m1 * 10 + digitVal m2,
               digitVal d1 * 10 + digitVal d2,
               [y1, y2, y3, y4, '-', m1, m2, '-', d1, d2])
    else none
  | _ => none

def isLeapYear (y : Nat) : Bool :=
  y % 4 = 0 && (y % 100 ≠ 0 || y % 400 = 0)

def daysInMonth (y m : Nat) : Nat :=
  if m = 2 then (if isLeapYear y then 29 else 28)
  else if m = 4 ∨ m = 6 ∨ m = 9 ∨ m = 11 then 30
  else 31

structure CivilDate where
  year : Nat
  month : Nat
  day : Nat
deriving DecidableEq

/-- Models the JavaScript Date constructor new Date(y, m - 1, d) on the
argument ranges the source has already checked (1 ≤ m ≤ 12 and
1 ≤ d ≤ 31): a day count past the month length rolls over into the
following month. -/
def jsDateOf (y m d : Nat) : CivilDate :=
  if d ≤ daysInMonth y m then ⟨y, m, d⟩
  else if m = 12 then ⟨y + 1, 1, d - daysInMonth y m⟩
  else ⟨y, m + 1, d - daysInMonth y m⟩

/-- validateAndCreateDate: range checks on year (2009-2025), month and
day, then construction of a Date and a field-by-field comparison that
rejects rolled-over (non-calendar) triples. -/
def validateAndCreateDate (year month day : Nat) : Option CivilDate :=
  if year < 2009 ∨ 2025 < year then none
  else if month < 1 ∨ 12 < month then none
  else if day < 1 ∨ 31 < day then none
  else
    let date := jsDateOf year month day
    if date.year = year ∧ date.month = month ∧ date.day = day then some date
    else none

/-- createVideoFingerprint: size, the literal segment video, and the
date taken from the file stem; none when the stem has no anchored
date-counter pattern or the date is not calendar-valid. -/
def createVideoFingerprint (fileSize : Nat) (stem : String) : Option String :=
  match matchVideoStem stem.data with
  | none => none
  | some (y, m, d, dateChars) =>
    match validateAndCreateDate y m d with
    | none => none
    | some _ => some (natToString fileSize ++ "-video-" ++ ⟨dateChars⟩)

/-! ### The size segment of a fingerprint determines the byte size. -/

theorem append_dash_inj : ∀ (l1 : List Char) (l2 r1 r2 : List Char),
    (∀ c ∈ l1, c ≠ '-') → (∀ c ∈ l2, c ≠ '-') →
    l1 ++ '-' :: r1 = l2 ++ '-' :: r2 → l1 = l2
  | [], [], _, _, _, _, _ => rfl
  | [], c :: l2, r1, r2, _, h2, h => by
    simp at h
    exact absurd h.1.symm (h2 c (List.mem_cons_self c l2))
  | c :: l1, [], r1, r2, h1, _, h => by
    simp at h
    exact absurd h.1 (h1 c (List.mem_cons_self c l1))
  | c :: l1, c2 :: l2, r1, r2, h1, h2, h => by
    simp only [List.cons_append, List.cons.injEq] at h
    have := append_dash_inj l1 l2 r1 r2
      (fun x hx => h1 x (List.mem_cons_of_mem c hx))
      (fun x hx => h2 x (List.mem_cons_of_mem c2 hx)) h.2
    rw [h.1, this]

theorem sizeSegment_inj {n1 n2 : Nat} {r1 r2 : String}
    (h : natToString n1 ++ "-" ++ r1 = natToString n2 ++ "-" ++ r2) :
    n1 = n2 := by
  have hdata := congrArg String.data h
  simp only [String.data_append] at hdata
  have hlist : (natToString n1).data ++ '-' :: r1.data =
      (natToString n2).data ++ '-' :: r2.data := by
    simpa using hdata
  have heq := append_dash_inj (natToString n1).data (natToString n2).data
    r1.data r2.data (natToString_no_dash n1) (natToString_no_dash n2) hlist
  exact natToString_inj (String.ext heq)

theorem dashVideo_data :
    ("-video-" : String).data = '-' :: ("video-" : String).data := rfl

/-- Every fingerprint the video generator yields starts with the byte
size and a dash. -/
theorem createVideoFingerprint_shape {s : Nat} {stem f : String}
    (h : createVideoFingerprint s stem = some f) :
    ∃ r, f = natToString s ++ "-" ++ r := by
  cases hm : matchVideoStem stem.data with
  | none => simp [createVideoFingerprint, hm] at h
  | some t =>
    obtain ⟨y, m, d, dc⟩ := t
    cases hv : validateAndCreateDate y m d with
    | none => simp [createVideoFingerprint, hm, hv] at h
    | some _ =>
      simp only [createVideoFingerprint, hm, hv, Option.some.injEq] at h
      refine ⟨"video-" ++ ⟨dc⟩, ?_⟩
      rw [← h]
      apply String.ext
      simp [String.data_append, dashVideo_data]

/-- C5: fingerprints of files with different byte sizes are always
distinct, across every combination of the image-style fingerprint and
the video fingerprint, because each fingerprint starts with the decimal
byte size followed by the first dash character. -/
theorem fingerprint_size_disjoint
    (md5a md5b : List (String × String) → String)
    (s1 s2 : Nat) (m1 m2 : MetaResult) (stem1 stem2 : String)
    (hne : s1 ≠ s2) :
    createFileFingerprint md5a s1 m1 ≠ createFileFingerprint md5b s2 m2 ∧
    (∀ f1 f2, createVideoFingerprint s1 stem1 = some f1 →
      createVideoFingerprint s2 stem2 = some f2 → f1 ≠ f2) ∧
    (∀ f2, createVideoFingerprint s2 stem2 = some f2 →
      createFileFingerprint md5a s1 m1 ≠ f2) := by
  refine ⟨?_, ?_, ?_⟩
  · intro h
    unfold createFileFingerprint at h
    exact hne (sizeSegment_inj h)
  · intro f1 f2 h1 h2 hf
    obtain ⟨r1, rfl⟩ := createVideoFingerprint_shape h1
    obtain ⟨r2, rfl⟩ := createVideoFingerprint_shape h2
    exact hne (sizeSegment_inj hf)
  · intro f2 h2 hf
    obtain ⟨r2, rfl⟩ := createVideoFingerprint_shape h2
    unfold createFileFingerprint at hf
    exact hne (sizeSegment_inj hf)

/-- C5 witness at sizes 5 and 7. -/
theorem fingerprint_size_disjoint_witness :
    (5 : Nat) ≠ 7 ∧
    createFileFingerprint (fun _ => "") 5 .err ≠
      createFileFingerprint (fun _ => "") 7 .err :=
  ⟨by decide,
   (fingerprint_size_disjoint (fun _ => "") (fun _ => "") 5 7 .err .err
      "a" "b" (by decide)).1⟩

/-- C6: when metadata extraction fails entirely (the parser throws or
returns nothing), the fingerprint is the byte size joined with the
fixed sentinel, so two metadata-unreadable files of equal byte size get
identical fingerprints. -/
theorem metadata_failure_sentinel
    (md5 : List (String × String) → String) (size : Nat)
    (m1 m2 : MetaResult)
    (h1 : m1 = .err ∨ m1 = .null) (h2 : m2 = .err ∨ m2 = .null) :
    createFileFingerprint md5 size m1 = natToString size ++ "-no-exif" ∧
    createFileFingerprint md5 size m1 = createFileFingerprint md5 size m2 := by
  have hfix : ∀ m, m = MetaResult.err ∨ m = MetaResult.null →
      createFileFingerprint md5 size m = natToString size ++ "-no-exif" := by
    rintro m (rfl | rfl) <;>
      · show natToString size ++ "-" ++ "no-exif" = _
        apply String.ext
        simp [String.data_append]
  exact ⟨hfix m1 h1, by rw [hfix m1 h1, hfix m2 h2]⟩

/-- C6 witness: two unreadable files of size 7 share the fingerprint. -/
theorem metadata_failure_sentinel_witness :
    createFileFingerprint (fun _ => "") 7 .err = natToString 7 ++ "-no-exif" ∧
    createFileFingerprint (fun _ => "") 7 .err =
      createFileFingerprint (fun _ => "") 7 .null :=
  metadata_failure_sentinel (fun _ => "") 7 .err .null
    (Or.inl rfl) (Or.inr rfl)

/-! ### Association-list model of a JavaScript Map keyed by strings. -/

def mapSet {α : Type} : List (String × α) → String → α → List (String × α)
  | [], k, v => [(k, v)]
  | kv :: m, k, v => if kv.1 = k then (k, v) :: m else kv :: mapSet m k v

def mapGet {α : Type} (m : List (String × α)) (k : String) : Option α :=
  (m.find? fun kv => decide (kv.1 = k)).map (·.2)

def hasKey {α : Type} (m : List (String × α)) (k : String) : Bool :=
  (mapGet m k).isSome

/-! ### Persistent Fingerprint Cache (batch-processor.js:
loadHashCache). -/

structure CacheEntry where
  hash : String
  modTime : Nat
deriving DecidableEq

/-- A parsed cache snapshot document.  The entries field is none when
the document has no entries array (the shape check in the loader
fails). -/
structure CacheDoc where
  version : String
  lastUpdated : String
  entries : Option (List (String × CacheEntry))
deriving DecidableEq

/-- The state of the on-disk snapshot as the loader observes it:
missing file, a read or JSON-parse failure, or a parsed document. -/
inductive RawCache where
  | absent
  | unreadable
  | parsed (doc : CacheDoc)

/-- loadHashCache: absent file, read failure and parse failure all
yield the empty map; a parsed document with an entries array is folded
back into a map. -/
def loadHashCache : RawCache → List (String × CacheEntry)
  | .absent => []
  | .unreadable => []
  | .parsed doc =>
    match doc.entries with
    | none => []
    | some es => es.foldl (fun cache fe => mapSet cache fe.1 fe.2) []

/-- C8: loading the cache never fails the run: an absent, unreadable or
unparsable snapshot (including a document without an entries array)
loads as the empty entry set, so the merge proceeds as with a cold
cache.  The loader is a total function into entry maps: no error value
exists in its range. -/
theorem loadHashCache_cold_start :
    loadHashCache .absent = [] ∧
    loadHashCache .unreadable = [] ∧
    ∀ v lu, loadHashCache (.parsed ⟨v, lu, none⟩) = [] :=
  ⟨rfl, rfl, fun _ _ => rfl⟩

/-- C9 counterexample: a snapshot carrying the unknown future version
string 9.9 is not discarded: its entries are loaded as-is, so no cold
rebuild happens on an unknown version tag. -/
theorem loadHashCache_future_version_loaded :
    loadHashCache (.parsed ⟨"9.9", "2031-01-01", some [("f", ⟨"h", 5⟩)]⟩) =
      [("f", ⟨"h", 5⟩)] ∧
    loadHashCache (.parsed ⟨"9.9", "2031-01-01", some [("f", ⟨"h", 5⟩)]⟩) ≠ [] := by
  constructor
  · rfl
  · intro h
    simp [loadHashCache, mapSet] at h

/-- C9 amended: the loader ignores the schema version tag entirely: the
loaded entries depend only on the entries array, never on the version
string, and unknown versions raise no parse error (the loader is total)
but also trigger no cold rebuild. -/
theorem loadHashCache_version_irrelevant :
    ∀ v1 v2 lu1 lu2 es,
      loadHashCache (.parsed ⟨v1, lu1, es⟩) =
        loadHashCache (.parsed ⟨v2, lu2, es⟩) :=
  fun _ _ _ _ _ => rfl

/-! ### Duplicate Group Resolver (organizer.js: handleDuplicates,
handleFilenameDuplicates, removeDuplicateFiles). -/

/-- One member of a duplicate group with the data the resolver reads:
path, base name without extension, and modification time. -/
structure GroupFile where
  path : String
  stem : String
  mtime : Nat
deriving DecidableEq

/-- The hasSuffix test: the base name ends with the configured
duplicate suffix. -/
def endsWithSuffix (sfx : String) (f : GroupFile) : Bool :=
  sfx.data.isSuffixOf f.stem.data

/-- Insert into an ascending-by-mtime list, after any equal keys; the
building block of the stable ascending sort below. -/
def insertByMtime (f : GroupFile) : List GroupFile → List GroupFile
  | [] => [f]
  | g :: gs => if f.mtime < g.mtime then f :: g :: gs else g :: insertByMtime f gs

/-- Stable ascending sort by modification time: the model of the
JavaScript files.sort with comparator a.mtime - b.mtime. -/
def sortByMtime (l : List GroupFile) : List GroupFile :=
  l.foldl (fun acc f => insertByMtime f acc) []

theorem mem_insertByMtime {x f : GroupFile} :
    ∀ {l : List GroupFile}, x ∈ insertByMtime f l ↔ x = f ∨ x ∈ l
  | [] => by simp [insertByMtime]
  | g :: gs => by
    simp only [insertByMtime]
    split
    · simp
    · rw [List.mem_cons, List.mem_cons, mem_insertByMtime]
      tauto

theorem pairwise_insertByMtime {f : GroupFile} :
    ∀ {l : List GroupFile},
      l.Pairwise (fun a b => a.mtime ≤ b.mtime) →
      (insertByMtime f l).Pairwise (fun a b => a.mtime ≤ b.mtime)
  | [], _ => by simp [insertByMtime]
  | g :: gs, h => by
    rw [List.pairwise_cons] at h
    simp only [insertByMtime]
    split
    · rename_i hlt
      refine List.pairwise_cons.mpr ⟨?_, List.pairwise_cons.mpr h⟩
      intro b hb
      rcases List.mem_cons.mp hb with rfl | hb2
      · exact Nat.le_of_lt hlt
      · exact Nat.le_trans (Nat.le_of_lt hlt) (h.1 b hb2)
    · rename_i hge
      refine List.pairwise_cons.mpr ⟨?_, pairwise_insertByMtime h.2⟩
      intro b hb
      rcases mem_insertByMtime.mp hb with rfl | hb2
      · exact Nat.le_of_not_lt hge
      · exact h.1 b hb2

theorem mem_sortByMtime_aux {x : GroupFile} :
    ∀ (l acc : List GroupFile),
      x ∈ l.foldl (fun a f => insertByMtime f a) acc ↔ x ∈ acc ∨ x ∈ l
  | [], acc => by simp
  | f :: fs, acc => by
    simp only [List.foldl_cons]
    rw [mem_sortByMtime_aux fs, mem_insertByMtime]
    simp only [List.mem_cons]
    tauto

theorem mem_sortByMtime {x : GroupFile} {l : List GroupFile} :
    x ∈ sortByMtime l ↔ x ∈ l := by
  unfold sortByMtime
  rw [mem_sortByMtime_aux]
  simp

theorem pairwise_sortByMtime_aux :
    ∀ (l acc : List GroupFile),
      acc.Pairwise (fun a b => a.mtime ≤ b.mtime) →
      (l.foldl (fun a f => insertByMtime f a) acc).Pairwise
        (fun a b => a.mtime ≤ b.mtime)
  | [], _, h => h
  | _ :: fs, _, h =>
    pairwise_sortByMtime_aux fs _ (pairwise_insertByMtime h)

theorem pairwise_sortByMtime (l : List GroupFile) :
    (sortByMtime l).Pairwise (fun a b => a.mtime ≤ b.mtime) :=
  pairwise_sortByMtime_aux l [] (by simp)

/-- The head of the stable sort is a minimal-mtime member. -/
theorem sortByMtime_head_min {l : List GroupFile} {k : GroupFile}
    (h : (sortByMtime l).head? = some k) :
    k ∈ l ∧ ∀ x ∈ l, k.mtime ≤ x.mtime := by
  cases hs : sortByMtime l with
  | nil => rw [hs] at h; simp at h
  | cons a rest =>
    rw [hs] at h
    simp only [List.head?_cons, Option.some.injEq] at h
    subst h
    have hp := pairwise_sortByMtime l
    rw [hs, List.pairwise_cons] at hp
    constructor
    · exact mem_sortByMtime.mp (by rw [hs]; exact List.mem_cons_self _ _)
    · intro x hx
      have : x ∈ sortByMtime l := mem_sortByMtime.mpr hx
      rw [hs] at this
      rcases List.mem_cons.mp this with rfl | hmem
      · exact Nat.le_refl _
      · exact hp.1 x hmem

theorem sortByMtime_ne_nil {l : List GroupFile} (h : l ≠ []) :
    sortByMtime l ≠ [] := by
  intro hs
  match l, h with
  | x :: xs, _ =>
    have : x ∈ sortByMtime (x :: xs) := mem_sortByMtime.mpr (List.mem_cons_self _ _)
    rw [hs] at this
    simp at this

/-- The survivor choice shared by handleFilenameDuplicates and
handleDuplicates: when a suffix is configured and some member carries
it, the oldest suffixed member survives; otherwise the oldest of the
remaining originals (which is the whole group when nothing is
suffixed); with no suffix configured, the oldest member overall. -/
def handleDuplicatesKeep (sfx : Option String) (files : List GroupFile) :
    Option GroupFile :=
  match sfx with
  | some s =>
    let suffixed := files.filter (endsWithSuffix s)
    let originals := files.filter fun f => !(endsWithSuffix s f)
    if suffixed.length > 0 then (sortByMtime suffixed).head?
    else (sortByMtime originals).head?
  | none => (sortByMtime files).head?

/-- The members handleDuplicates removes: everyone whose path differs
from the survivor's. -/
def handleDuplicatesRemove (sfx : Option String) (files : List GroupFile) :
    List GroupFile :=
  match handleDuplicatesKeep sfx files with
  | none => []
  | some k => files.filter fun f => decide (f.path ≠ k.path)

/-- The survivor choice of removeDuplicateFiles, used by the standalone
dedup pass: sort the group by modification time and keep the first
element; no suffix is consulted. -/
def removeDuplicateFilesKeep (group : List GroupFile) : Option GroupFile :=
  (sortByMtime group).head?

/-- The members removeDuplicateFiles removes: the sorted tail. -/
def removeDuplicateFilesRemove (group : List GroupFile) : List GroupFile :=
  (sortByMtime group).tail

/-- C7 counterexample: on three files with one fingerprint, times
1 < 2 < 3 and only the middle file carrying the configured suffix, the
standalone dedup pass (removeDuplicateFiles) keeps the time-1 file and
removes the suffixed time-2 file: it never consults the suffix, so the
suffix tie-break does not apply in that pass. -/
theorem removeDuplicateFiles_ignores_suffix :
    removeDuplicateFilesKeep
        [⟨"/t/a.jpg", "a", 1⟩, ⟨"/t/b-mod.jpg", "b-mod", 2⟩,
         ⟨"/t/c.jpg", "c", 3⟩] =
      some ⟨"/t/a.jpg", "a", 1⟩ ∧
    (⟨"/t/b-mod.jpg", "b-mod", 2⟩ : GroupFile) ∈
      removeDuplicateFilesRemove
        [⟨"/t/a.jpg", "a", 1⟩, ⟨"/t/b-mod.jpg", "b-mod", 2⟩,
         ⟨"/t/c.jpg", "c", 3⟩] ∧
    endsWithSuffix "-mod" ⟨"/t/b-mod.jpg", "b-mod", 2⟩ = true ∧
    endsWithSuffix "-mod" ⟨"/t/a.jpg", "a", 1⟩ = false ∧
    endsWithSuffix "-mod" ⟨"/t/c.jpg", "c", 3⟩ = false := by
  decide

/-- C7 amended: the suffix tie-break (oldest suffixed member if any
member is suffixed, else oldest member overall) is implemented by the
survivor choice of handleFilenameDuplicates and handleDuplicates, and
on the T1 < T2 < T3 scenario with only T2 suffixed that choice keeps
T2; the standalone dedup pass (removeDuplicateFiles) instead always
keeps the oldest member overall and ignores the suffix. -/
theorem duplicate_resolver_tie_break (s : String) (files : List GroupFile) :
    (∀ k, handleDuplicatesKeep (some s) files = some k →
      (∃ f ∈ files, endsWithSuffix s f = true) →
      k ∈ files ∧ endsWithSuffix s k = true ∧
        ∀ f ∈ files, endsWithSuffix s f = true → k.mtime ≤ f.mtime) ∧
    (∀ k, handleDuplicatesKeep (some s) files = some k →
      (∀ f ∈ files, endsWithSuffix s f = false) →
      k ∈ files ∧ ∀ f ∈ files, k.mtime ≤ f.mtime) ∧
    (∀ k, handleDuplicatesKeep none files = some k →
      k ∈ files ∧ ∀ f ∈ files, k.mtime ≤ f.mtime) ∧
    (∀ k, removeDuplicateFilesKeep files = some k →
      k ∈ files ∧ ∀ f ∈ files, k.mtime ≤ f.mtime) ∧
    handleDuplicatesKeep (some "-mod")
        [⟨"/t/a.jpg", "a", 1⟩, ⟨"/t/b-mod.jpg", "b-mod", 2⟩,
         ⟨"/t/c.jpg", "c", 3⟩] =
      some ⟨"/t/b-mod.jpg", "b-mod", 2⟩ := by
  refine ⟨?_, ?_, ?_, ?_, by decide⟩
  · intro k hk ⟨f, hf, hsf⟩
    have hmem : f ∈ files.filter (endsWithSuffix s) :=
      List.mem_filter.mpr ⟨hf, hsf⟩
    have hlen : (files.filter (endsWithSuffix s)).length > 0 :=
      List.length_pos.mpr (List.ne_nil_of_mem hmem)
    unfold handleDuplicatesKeep at hk
    simp only [hlen, if_pos] at hk
    obtain ⟨hk1, hk2⟩ := sortByMtime_head_min hk
    have hk1' := List.mem_filter.mp hk1
    refine ⟨hk1'.1, hk1'.2, ?_⟩
    intro g hg hsg
    exact hk2 g (List.mem_filter.mpr ⟨hg, hsg⟩)
  · intro k hk hall
    have hnil : files.filter (endsWithSuffix s) = [] := by
      rw [List.filter_eq_nil_iff]
      intro a ha
      simp [hall a ha]
    have hfull : (files.filter fun f => !(endsWithSuffix s f)) = files := by
      rw [List.filter_eq_self]
      intro a ha
      simp [hall a ha]
    simp only [handleDuplicatesKeep, hnil, hfull, List.length_nil, gt_iff_lt,
      Nat.lt_irrefl, if_false] at hk
    exact sortByMtime_head_min hk
  · intro k hk
    unfold handleDuplicatesKeep at hk
    exact sortByMtime_head_min hk
  · intro k hk
    exact sortByMtime_head_min hk

/-- C7 amended witness: applying the tie-break theorem to the concrete
three-file group keeps the suffixed time-2 member in the
handleDuplicates-style passes. -/
theorem duplicate_resolver_tie_break_witness :
    handleDuplicatesKeep (some "-mod")
        [⟨"/t/a.jpg", "a", 1⟩, ⟨"/t/b-mod.jpg", "b-mod", 2⟩,
         ⟨"/t/c.jpg", "c", 3⟩] =
      some ⟨"/t/b-mod.jpg", "b-mod", 2⟩ ∧
    ((⟨"/t/b-mod.jpg", "b-mod", 2⟩ : GroupFile) ∈
        ([⟨"/t/a.jpg", "a", 1⟩, ⟨"/t/b-mod.jpg", "b-mod", 2⟩,
          ⟨"/t/c.jpg", "c", 3⟩] : List GroupFile) ∧
      endsWithSuffix "-mod" ⟨"/t/b-mod.jpg", "b-mod", 2⟩ = true ∧
      ∀ f ∈ ([⟨"/t/a.jpg", "a", 1⟩, ⟨"/t/b-mod.jpg", "b-mod", 2⟩,
          ⟨"/t/c.jpg", "c", 3⟩] : List GroupFile),
        endsWithSuffix "-mod" f = true →
        (⟨"/t/b-mod.jpg", "b-mod", 2⟩ : GroupFile).mtime ≤ f.mtime) :=
  ⟨(duplicate_resolver_tie_break "-mod"
      [⟨"/t/a.jpg", "a", 1⟩, ⟨"/t/b-mod.jpg", "b-mod", 2⟩,
       ⟨"/t/c.jpg", "c", 3⟩]).2.2.2.2,
   (duplicate_resolver_tie_break "-mod"
      [⟨"/t/a.jpg", "a", 1⟩, ⟨"/t/b-mod.jpg", "b-mod", 2⟩,
       ⟨"/t/c.jpg", "c", 3⟩]).1
     ⟨"/t/b-mod.jpg", "b-mod", 2⟩ (by decide) (by decide)⟩

/-! ### Map lemmas. -/

theorem mapGet_mapSet_self {α : Type} (m : List (String × α)) (k : String) (v : α) :
    mapGet (mapSet m k v) k = some v := by
  induction m with
  | nil => simp [mapSet, mapGet, List.find?]
  | cons kv m ih =>
    by_cases h : kv.1 = k
    · simp [mapSet, h, mapGet, List.find?]
    · simp only [mapSet, if_neg h]
      simpa [mapGet, List.find?, h] using ih

theorem mapGet_mapSet_ne {α : Type} (m : List (String × α)) (k a : String) (v : α)
    (h : a ≠ k) : mapGet (mapSet m k v) a = mapGet m a := by
  have h' : k ≠ a := Ne.symm h
  induction m with
  | nil => simp [mapSet, mapGet, List.find?, h']
  | cons kv m ih =>
    obtain ⟨k1, v1⟩ := kv
    by_cases hk : k1 = k
    · subst hk
      simp [mapSet, mapGet, List.find?, h']
    · simp only [mapSet, if_neg hk]
      by_cases ha : k1 = a
      · simp [mapGet, List.find?, ha]
      · simpa [mapGet, List.find?, ha] using ih

theorem hasKey_mapSet {α : Type} (m : List (String × α)) (k a : String) (v : α) :
    hasKey (mapSet m k v) a = (decide (a = k) || hasKey m a) := by
  by_cases h : a = k
  · subst h
    simp [hasKey, mapGet_mapSet_self]
  · simp [hasKey, h, mapGet_mapSet_ne m k a v h]

theorem hasKey_iff_mapGet {α : Type} {m : List (String × α)} {a : String} :
    hasKey m a = true ↔ ∃ v, mapGet m a = some v := by
  unfold hasKey
  cases mapGet m a <;> simp

theorem mem_keys_mapSet {α : Type} {m : List (String × α)} {k a : String} {v : α}
    (h : a ∈ (mapSet m k v).map Prod.fst) : a = k ∨ a ∈ m.map Prod.fst := by
  induction m with
  | nil => simpa [mapSet] using h
  | cons kv m ih =>
    by_cases hk : kv.1 = k
    · subst hk
      simpa [mapSet] using h
    · simp only [mapSet, if_neg hk, List.map_cons, List.mem_cons] at h
      rcases h with h | h
      · exact Or.inr (by simp [h])
      · rcases ih h with h2 | h2
        · exact Or.inl h2
        · exact Or.inr (List.mem_cons_of_mem _ h2)

theorem nodupKeys_mapSet {α : Type} {m : List (String × α)} (k : String) (v : α)
    (h : (m.map Prod.fst).Nodup) : ((mapSet m k v).map Prod.fst).Nodup := by
  induction m with
  | nil => simp [mapSet]
  | cons kv m ih =>
    simp only [List.map_cons, List.nodup_cons] at h
    by_cases hk : kv.1 = k
    · subst hk
      simpa [mapSet] using h
    · simp only [mapSet, if_neg hk, List.map_cons, List.nodup_cons]
      refine ⟨fun hmem => ?_, ih h.2⟩
      rcases mem_keys_mapSet hmem with h2 | h2
      · exact hk h2
      · exact h.1 h2

/-! ### Hash Database Builder and Merge Planner (batch-processor.js:
buildHashDatabase, buildTargetHashDatabase, copyOrganizedFiles). -/

/-- A file as the merge observes it: a path and, when stat and read
succeed, the byte size and metadata outcome that
createFileFingerprint consumes.  content none models a file whose
fingerprinting throws. -/
structure MFile where
  path : String
  content : Option (Nat × MetaResult)
deriving DecidableEq

/-- The fingerprint the merge computes for a file: createFileFingerprint
over its size and metadata, applied to every file type alike. -/
def fingerprintOf (md5 : List (String × String) → String) (f : MFile) :
    Option String :=
  f.content.map fun c => createFileFingerprint md5 c.1 c.2

/-- One iteration of buildHashDatabase: record the file's fingerprint
under its path, or skip the file when fingerprinting throws. -/
def sourceHashStep (md5 : List (String × String) → String)
    (hashes : List (String × String)) (f : MFile) : List (String × String) :=
  match fingerprintOf md5 f with
  | some h => mapSet hashes f.path h
  | none => hashes

/-- buildHashDatabase: fingerprint every source file, skipping files
whose fingerprinting throws. -/
def buildHashDatabase (md5 : List (String × String) → String)
    (files : List MFile) : List (String × String) :=
  files.foldl (sourceHashStep md5) []

/-- The cache test of buildTargetHashDatabase: a cached entry is used
when it exists and its stored modification time equals the live one. -/
def cachedOK (cache : List (String × CacheEntry)) (modOf : String → Option Nat)
    (f : MFile) : Option CacheEntry :=
  match mapGet cache f.path, modOf f.path with
  | some e, some t => if e.modTime = t then some e else none
  | _, _ => none

/-- One iteration of the valid-cache loop of buildTargetHashDatabase:
adopt the cached hash of a cache-valid file as a key mapping to the
file's path. -/
def targetCacheStep (cache : List (String × CacheEntry))
    (modOf : String → Option Nat) (m : List (String × String)) (f : MFile) :
    List (String × String) :=
  match cachedOK cache modOf f with
  | some e => mapSet m e.hash f.path
  | none => m

/-- One iteration of the hashing loop of buildTargetHashDatabase:
fingerprint a stale file and record the file under its fingerprint,
skipping files whose fingerprinting throws. -/
def targetHashStep (md5 : List (String × String) → String)
    (m : List (String × String)) (f : MFile) : List (String × String) :=
  match fingerprintOf md5 f with
  | some h => mapSet m h f.path
  | none => m

/-- buildTargetHashDatabase: first adopt the hash of every
cache-valid file, then fingerprint the remaining (new or modified)
files, dropping files whose fingerprinting throws; the result maps
fingerprint to representative path. -/
def buildTargetHashDatabase (md5 : List (String × String) → String)
    (cache : List (String × CacheEntry)) (modOf : String → Option Nat)
    (files : List MFile) : List (String × String) :=
  (files.filter fun f => (cachedOK cache modOf f).isNone).foldl
    (targetHashStep md5) (files.foldl (targetCacheStep cache modOf) [])

inductive MergeAction where
  | skipUnhashed (sourcePath : String)
  | skipDuplicate (sourcePath : String)
  | copy (sourcePath targetPath : String)
deriving DecidableEq

structure MergeState where
  targetIndex : List (String × String)
  targetFiles : List MFile
  copiedCount : Nat
  actions : List MergeAction
deriving DecidableEq

/-- One iteration of the copy loop of copyOrganizedFiles: look the file
up in the prebuilt source hash map (absent means it could not be hashed
and is skipped); a fingerprint already present in the target index
means skip as duplicate; otherwise copy the file to its resolved
destination (destOf stands for the mirrored relative path after
findUniqueFilename) and immediately record the fingerprint with that
destination in the target index. -/
def copyStep (sourceHashes : List (String × String)) (destOf : String → String)
    (st : MergeState) (f : MFile) : MergeState :=
  match mapGet sourceHashes f.path with
  | none => { st with actions := st.actions ++ [.skipUnhashed f.path] }
  | some fp =>
    if hasKey st.targetIndex fp then
      { st with actions := st.actions ++ [.skipDuplicate f.path] }
    else
      { targetIndex := mapSet st.targetIndex fp (destOf f.path)
        targetFiles := st.targetFiles ++ [⟨destOf f.path, f.content⟩]
        copiedCount := st.copiedCount + 1
        actions := st.actions ++ [.copy f.path (destOf f.path)] }

/-- The whole copy loop of copyOrganizedFiles over the source files. -/
def copyOrganizedFiles (sourceHashes : List (String × String))
    (destOf : String → String) (sourceFiles : List MFile)
    (st : MergeState) : MergeState :=
  sourceFiles.foldl (copyStep sourceHashes destOf) st

/-! ### Fold helpers for key presence in accumulated maps. -/

theorem hasKey_foldl_mono {α : Type}
    (f : List (String × String) → α → List (String × String))
    (hmono : ∀ m x a, hasKey m a = true → hasKey (f m x) a = true) :
    ∀ (l : List α) (m : List (String × String)) (a : String),
      hasKey m a = true → hasKey (l.foldl f m) a = true
  | [], _, _, h => h
  | x :: xs, m, a, h =>
    hasKey_foldl_mono f hmono xs (f m x) a (hmono m x a h)

theorem hasKey_foldl_of_mem {α : Type}
    (f : List (String × String) → α → List (String × String)) (g : α) (k : String)
    (hmono : ∀ m x a, hasKey m a = true → hasKey (f m x) a = true)
    (hadd : ∀ m, hasKey (f m g) k = true) :
    ∀ (l : List α) (m : List (String × String)),
      g ∈ l → hasKey (l.foldl f m) k = true
  | x :: xs, m, hg => by
    rcases List.mem_cons.mp hg with rfl | hmem
    · exact hasKey_foldl_mono f hmono xs (f m g) k (hadd m)
    · exact hasKey_foldl_of_mem f g k hmono hadd xs (f m x) hmem

theorem hasKey_foldl_cases {α : Type}
    (f : List (String × String) → α → List (String × String))
    (P : α → String → Prop)
    (hstep : ∀ m x a, hasKey (f m x) a = true → hasKey m a = true ∨ P x a) :
    ∀ (l : List α) (m : List (String × String)) (a : String),
      hasKey (l.foldl f m) a = true → hasKey m a = true ∨ ∃ x ∈ l, P x a
  | [], _, _, h => Or.inl h
  | x :: xs, m, a, h => by
    rcases hasKey_foldl_cases f P hstep xs (f m x) a h with h1 | ⟨y, hy, hP⟩
    · rcases hstep m x a h1 with h2 | h2
      · exact Or.inl h2
      · exact Or.inr ⟨x, List.mem_cons_self _ _, h2⟩
    · exact Or.inr ⟨y, List.mem_cons_of_mem _ hy, hP⟩

/-! ### C1: the merge skips present fingerprints, records copied ones
immediately, and keeps at most one representative per fingerprint. -/

theorem copyStep_nodupKeys (sourceHashes : List (String × String))
    (destOf : String → String) (st : MergeState) (f : MFile)
    (h : (st.targetIndex.map Prod.fst).Nodup) :
    ((copyStep sourceHashes destOf st f).targetIndex.map Prod.fst).Nodup := by
  unfold copyStep
  cases mapGet sourceHashes f.path with
  | none => exact h
  | some fp =>
    by_cases hk : hasKey st.targetIndex fp
    · simpa [hk] using h
    · simpa [hk] using nodupKeys_mapSet fp (destOf f.path) h

theorem copyLoop_nodupKeys (sourceHashes : List (String × String))
    (destOf : String → String) :
    ∀ (files : List MFile) (st : MergeState),
      (st.targetIndex.map Prod.fst).Nodup →
      ((copyOrganizedFiles sourceHashes destOf files st).targetIndex.map
        Prod.fst).Nodup
  | [], _, h => h
  | f :: fs, st, h =>
    copyLoop_nodupKeys sourceHashes destOf fs
      (copyStep sourceHashes destOf st f)
      (copyStep_nodupKeys sourceHashes destOf st f h)

/-- C1: in the copy loop, a source file whose fingerprint is already in
the target index (as loaded, or as recorded by an earlier copy in the
same run) is skipped and changes nothing but the log; a source file
whose fingerprint is new is copied and its fingerprint is recorded in
the target index in the same step; and the loop preserves distinctness
of the index keys, so the index holds at most one representative path
per fingerprint at every step of the run. -/
theorem merge_skip_and_record (sourceHashes : List (String × String))
    (destOf : String → String) (st : MergeState) (f : MFile) (fp : String) :
    (mapGet sourceHashes f.path = some fp → hasKey st.targetIndex fp = true →
      copyStep sourceHashes destOf st f =
        { st with actions := st.actions ++ [.skipDuplicate f.path] }) ∧
    (mapGet sourceHashes f.path = some fp → hasKey st.targetIndex fp = false →
      hasKey (copyStep sourceHashes destOf st f).targetIndex fp = true ∧
      (copyStep sourceHashes destOf st f).actions =
        st.actions ++ [.copy f.path (destOf f.path)] ∧
      (copyStep sourceHashes destOf st f).copiedCount = st.copiedCount + 1) ∧
    (∀ sourceFiles, (st.targetIndex.map Prod.fst).Nodup →
      ((copyOrganizedFiles sourceHashes destOf sourceFiles st).targetIndex.map
        Prod.fst).Nodup) := by
  refine ⟨?_, ?_, fun files h => copyLoop_nodupKeys sourceHashes destOf files st h⟩
  · intro h1 h2
    simp [copyStep, h1, h2]
  · intro h1 h2
    simp [copyStep, h1, h2, hasKey_mapSet]

/-- C1 witness: a source file whose fingerprint fp1 is already indexed
is skipped and leaves the state unchanged apart from the log. -/
theorem merge_skip_and_record_witness :
    mapGet [("s", "fp1")] "s" = some "fp1" ∧
    hasKey [("fp1", "t")] "fp1" = true ∧
    copyStep [("s", "fp1")] (fun p => p) ⟨[("fp1", "t")], [], 0, []⟩ ⟨"s", none⟩ =
      ⟨[("fp1", "t")], [], 0, [.skipDuplicate "s"]⟩ :=
  ⟨by decide, by decide,
   (merge_skip_and_record [("s", "fp1")] (fun p => p) ⟨[("fp1", "t")], [], 0, []⟩
      ⟨"s", none⟩ "fp1").1 (by decide) (by decide)⟩

/-! ### C2: idempotence of the merge. -/

/-- What a correct cache snapshot promises: any entry whose stored
modification time still matches the live one records the file's actual
fingerprint.  The empty cache satisfies this vacuously. -/
def cacheCoherent (md5 : List (String × String) → String)
    (cache : List (String × CacheEntry)) (modOf : String → Option Nat)
    (files : List MFile) : Prop :=
  ∀ f ∈ files, ∀ e, mapGet cache f.path = some e →
    modOf f.path = some e.modTime → fingerprintOf md5 f = some e.hash

/-- One full merge run of copyOrganizedFiles: build the source hash
database, build the target hash database from the cache, then run the
copy loop from the freshly built index and current target files. -/
def mergeRun (md5 : List (String × String) → String) (destOf : String → String)
    (source : List MFile) (cache : List (String × CacheEntry))
    (modOf : String → Option Nat) (target : List MFile) : MergeState :=
  copyOrganizedFiles (buildHashDatabase md5 source) destOf source
    ⟨buildTargetHashDatabase md5 cache modOf target, target, 0, []⟩

theorem cachedOK_spec {cache : List (String × CacheEntry)}
    {modOf : String → Option Nat} {f : MFile} {e : CacheEntry}
    (hok : cachedOK cache modOf f = some e) :
    mapGet cache f.path = some e ∧ modOf f.path = some e.modTime := by
  unfold cachedOK at hok
  cases hget : mapGet cache f.path with
  | none => simp [hget] at hok
  | some e2 =>
    cases hmod : modOf f.path with
    | none => simp [hget, hmod] at hok
    | some t =>
      simp only [hget, hmod] at hok
      by_cases ht : e2.modTime = t
      · rw [if_pos ht] at hok
        injection hok with he
        subst he
        exact ⟨rfl, by rw [ht]⟩
      · rw [if_neg ht] at hok
        cases hok

theorem foldSourceHash_get_of_not_mem (md5 : List (String × String) → String) :
    ∀ (files : List MFile) (acc : List (String × String)) (k : String),
      (∀ g ∈ files, g.path ≠ k) →
      mapGet (files.foldl (sourceHashStep md5) acc) k = mapGet acc k := by
  intro files
  induction files with
  | nil => intro acc k _; rfl
  | cons g gs ih =>
    intro acc k hne
    rw [List.foldl_cons, ih _ k fun x hx => hne x (List.mem_cons_of_mem _ hx)]
    cases hfp : fingerprintOf md5 g with
    | none => simp [sourceHashStep, hfp]
    | some h =>
      simp only [sourceHashStep, hfp]
      exact mapGet_mapSet_ne acc g.path k h
        (Ne.symm (hne g (List.mem_cons_self _ _)))

theorem buildHash_lookup_aux (md5 : List (String × String) → String) :
    ∀ (files : List MFile) (acc : List (String × String)) (f : MFile),
      f ∈ files → (files.map MFile.path).Nodup → hasKey acc f.path = false →
      mapGet (files.foldl (sourceHashStep md5) acc) f.path =
        fingerprintOf md5 f := by
  intro files
  induction files with
  | nil => intro acc f hf; cases hf
  | cons g gs ih =>
    intro acc f hf hnd hacc
    simp only [List.map_cons, List.nodup_cons] at hnd
    rcases List.mem_cons.mp hf with rfl | hmem
    · rw [List.foldl_cons, foldSourceHash_get_of_not_mem md5 gs _ f.path
        fun x hx hxp => hnd.1 (hxp ▸ List.mem_map_of_mem MFile.path hx)]
      cases hfp : fingerprintOf md5 f with
      | some h =>
        simp only [sourceHashStep, hfp]
        exact mapGet_mapSet_self acc f.path h
      | none =>
        simp only [sourceHashStep, hfp]
        unfold hasKey at hacc
        cases hg : mapGet acc f.path with
        | none => rfl
        | some v => rw [hg] at hacc; simp at hacc
    · rw [List.foldl_cons]
      refine ih _ f hmem hnd.2 ?_
      have hne : f.path ≠ g.path :=
        fun he => hnd.1 (he ▸ List.mem_map_of_mem MFile.path hmem)
      cases hfp : fingerprintOf md5 g with
      | none => simpa [sourceHashStep, hfp] using hacc
      | some h => simp [sourceHashStep, hfp, hasKey_mapSet, hacc, hne]

/-- With distinct source paths, the built hash database answers exactly
the fingerprint of each file. -/
theorem mapGet_buildHashDatabase (md5 : List (String × String) → String)
    (files : List MFile) (f : MFile) (hf : f ∈ files)
    (hnd : (files.map MFile.path).Nodup) :
    mapGet (buildHashDatabase md5 files) f.path = fingerprintOf md5 f :=
  buildHash_lookup_aux md5 files [] f hf hnd rfl

theorem targetCacheStep_mono (cache : List (String × CacheEntry))
    (modOf : String → Option Nat) :
    ∀ (m : List (String × String)) (f : MFile) (a : String),
      hasKey m a = true → hasKey (targetCacheStep cache modOf m f) a = true := by
  intro m f a hk
  cases hok : cachedOK cache modOf f with
  | none => simpa [targetCacheStep, hok] using hk
  | some e => simp [targetCacheStep, hok, hasKey_mapSet, hk]

theorem targetHashStep_mono (md5 : List (String × String) → String) :
    ∀ (m : List (String × String)) (f : MFile) (a : String),
      hasKey m a = true → hasKey (targetHashStep md5 m f) a = true := by
  intro m f a hk
  cases hfp : fingerprintOf md5 f with
  | none => simpa [targetHashStep, hfp] using hk
  | some h => simp [targetHashStep, hfp, hasKey_mapSet, hk]

theorem targetCacheStep_cases (cache : List (String × CacheEntry))
    (modOf : String → Option Nat) :
    ∀ (m : List (String × String)) (f : MFile) (a : String),
      hasKey (targetCacheStep cache modOf m f) a = true →
      hasKey m a = true ∨ ∃ e, cachedOK cache modOf f = some e ∧ e.hash = a := by
  intro m f a hk
  cases hok : cachedOK cache modOf f with
  | none => simp only [targetCacheStep, hok] at hk; exact Or.inl hk
  | some e =>
    simp only [targetCacheStep, hok] at hk
    rw [hasKey_mapSet] at hk
    rcases Bool.or_eq_true_iff.mp hk with he | hm
    · exact Or.inr ⟨e, rfl, (of_decide_eq_true he).symm⟩
    · exact Or.inl hm

theorem targetHashStep_cases (md5 : List (String × String) → String) :
    ∀ (m : List (String × String)) (f : MFile) (a : String),
      hasKey (targetHashStep md5 m f) a = true →
      hasKey m a = true ∨ fingerprintOf md5 f = some a := by
  intro m f a hk
  cases hfp : fingerprintOf md5 f with
  | none => simp only [targetHashStep, hfp] at hk; exact Or.inl hk
  | some h =>
    simp only [targetHashStep, hfp] at hk
    rw [hasKey_mapSet] at hk
    rcases Bool.or_eq_true_iff.mp hk with he | hm
    · refine Or.inr ?_
      rw [of_decide_eq_true he]
    · exact Or.inl hm

/-- Every key of a built target database is the fingerprint of some
file of the tree, provided the cache is coherent. -/
theorem buildTarget_covered (md5 : List (String × String) → String)
    (cache : List (String × CacheEntry)) (modOf : String → Option Nat)
    (files : List MFile) (hco : cacheCoherent md5 cache modOf files)
    (fp : String)
    (h : hasKey (buildTargetHashDatabase md5 cache modOf files) fp = true) :
    ∃ g ∈ files, fingerprintOf md5 g = some fp := by
  unfold buildTargetHashDatabase at h
  rcases hasKey_foldl_cases (targetHashStep md5)
      (fun x a => fingerprintOf md5 x = some a)
      (targetHashStep_cases md5) _ _ fp h with h1 | ⟨x, hx, hP⟩
  · rcases hasKey_foldl_cases (targetCacheStep cache modOf)
        (fun x a => ∃ e, cachedOK cache modOf x = some e ∧ e.hash = a)
        (targetCacheStep_cases cache modOf) _ _ fp h1 with h2 | ⟨x, hx, e, hok, hhash⟩
    · simp [hasKey, mapGet, List.find?] at h2
    · obtain ⟨hget, hmod⟩ := cachedOK_spec hok
      have hfx := hco x hx e hget hmod
      exact ⟨x, hx, by rw [hfx, hhash]⟩
  · exact ⟨x, List.mem_of_mem_filter hx, hP⟩

/-- Completeness of the rebuilt target database: each fingerprintable
file of the tree contributes its fingerprint as a key. -/
theorem buildTarget_complete (md5 : List (String × String) → String)
    (cache : List (String × CacheEntry)) (modOf : String → Option Nat)
    (files : List MFile) (hco : cacheCoherent md5 cache modOf files)
    (g : MFile) (fp : String) (hg : g ∈ files)
    (hfp : fingerprintOf md5 g = some fp) :
    hasKey (buildTargetHashDatabase md5 cache modOf files) fp = true := by
  unfold buildTargetHashDatabase
  cases hok : cachedOK cache modOf g with
  | some e =>
    have hspec := cachedOK_spec hok
    have hfp2 : e.hash = fp := by
      have hfx := hco g hg e hspec.1 hspec.2
      rw [hfx] at hfp
      exact Option.some.inj hfp
    refine hasKey_foldl_mono (targetHashStep md5) (targetHashStep_mono md5)
      _ _ fp ?_
    exact hasKey_foldl_of_mem (targetCacheStep cache modOf) g fp
      (targetCacheStep_mono cache modOf)
      (fun m => by simp [targetCacheStep, hok, hasKey_mapSet, hfp2]) files [] hg
  | none =>
    refine hasKey_foldl_of_mem (targetHashStep md5) g fp (targetHashStep_mono md5)
      (fun m => by simp [targetHashStep, hfp, hasKey_mapSet]) _ _ ?_
    exact List.mem_filter.mpr ⟨hg, by simp [hok]⟩

theorem copyOrganizedFiles_cons (sourceHashes : List (String × String))
    (destOf : String → String) (f : MFile) (fs : List MFile) (st : MergeState) :
    copyOrganizedFiles sourceHashes destOf (f :: fs) st =
      copyOrganizedFiles sourceHashes destOf fs
        (copyStep sourceHashes destOf st f) := rfl

theorem copyStep_key_mono (sourceHashes : List (String × String))
    (destOf : String → String) (st : MergeState) (f : MFile) (a : String)
    (h : hasKey st.targetIndex a = true) :
    hasKey (copyStep sourceHashes destOf st f).targetIndex a = true := by
  cases hget : mapGet sourceHashes f.path with
  | none => simpa [copyStep, hget] using h
  | some fp =>
    by_cases hk : hasKey st.targetIndex fp = true
    · simpa [copyStep, hget, hk] using h
    · simp [copyStep, hget, hk, hasKey_mapSet, h]

theorem copyLoop_key_mono (sourceHashes : List (String × String))
    (destOf : String → String) :
    ∀ (files : List MFile) (st : MergeState) (a : String),
      hasKey st.targetIndex a = true →
      hasKey (copyOrganizedFiles sourceHashes destOf files st).targetIndex a = true
  | [], _, _, h => h
  | f :: fs, st, a, h =>
    copyLoop_key_mono sourceHashes destOf fs _ a
      (copyStep_key_mono sourceHashes destOf st f a h)

theorem copyLoop_covered (md5 : List (String × String) → String)
    (sourceHashes : List (String × String)) (destOf : String → String) :
    ∀ (files : List MFile) (st : MergeState),
      (∀ f ∈ files, mapGet sourceHashes f.path = fingerprintOf md5 f) →
      (∀ fp, hasKey st.targetIndex fp = true →
        ∃ g ∈ st.targetFiles, fingerprintOf md5 g = some fp) →
      ∀ fp,
        hasKey (copyOrganizedFiles sourceHashes destOf files st).targetIndex fp =
          true →
        ∃ g ∈ (copyOrganizedFiles sourceHashes destOf files st).targetFiles,
          fingerprintOf md5 g = some fp := by
  intro files
  induction files with
  | nil => intro st _ hcov fp h; exact hcov fp h
  | cons f fs ih =>
    intro st hsh hcov fp
    rw [copyOrganizedFiles_cons]
    refine ih _ (fun x hx => hsh x (List.mem_cons_of_mem _ hx)) ?_ fp
    intro a ha
    cases hget : mapGet sourceHashes f.path with
    | none =>
      simp only [copyStep, hget] at ha ⊢
      exact hcov a ha
    | some fp0 =>
      by_cases hk : hasKey st.targetIndex fp0 = true
      · simp only [copyStep, hget, hk, if_pos] at ha ⊢
        exact hcov a ha
      · simp only [copyStep, hget, hk, if_neg, Bool.false_eq_true,
          not_false_iff] at ha ⊢
        rw [hasKey_mapSet] at ha
        rcases Bool.or_eq_true_iff.mp ha with he | hm
        · refine ⟨⟨destOf f.path, f.content⟩,
            List.mem_append_right _ (List.mem_singleton_self _), ?_⟩
          have hff : fingerprintOf md5 f = some fp0 := by
            rw [← hsh f (List.mem_cons_self _ _)]; exact hget
          rw [of_decide_eq_true he]
          exact hff
        · obtain ⟨g, hgmem, hgfp⟩ := hcov a hm
          exact ⟨g, List.mem_append_left _ hgmem, hgfp⟩

theorem copyLoop_keys_complete (sourceHashes : List (String × String))
    (destOf : String → String) :
    ∀ (files : List MFile) (st : MergeState) (f : MFile) (fp : String),
      f ∈ files → mapGet sourceHashes f.path = some fp →
      hasKey (copyOrganizedFiles sourceHashes destOf files st).targetIndex fp =
        true := by
  intro files
  induction files with
  | nil => intro st f fp hf; cases hf
  | cons g gs ih =>
    intro st f fp hf hget
    rw [copyOrganizedFiles_cons]
    rcases List.mem_cons.mp hf with rfl | hmem
    · refine copyLoop_key_mono sourceHashes destOf gs _ fp ?_
      by_cases hk : hasKey st.targetIndex fp = true
      · exact copyStep_key_mono sourceHashes destOf st f fp hk
      · simp [copyStep, hget, hk, hasKey_mapSet]
    · exact ih _ f fp hmem hget

theorem copyLoop_all_skips (sourceHashes : List (String × String))
    (destOf : String → String) :
    ∀ (files : List MFile) (st : MergeState),
      (∀ f ∈ files, ∀ fp, mapGet sourceHashes f.path = some fp →
        hasKey st.targetIndex fp = true) →
      (copyOrganizedFiles sourceHashes destOf files st).copiedCount =
        st.copiedCount ∧
      (copyOrganizedFiles sourceHashes destOf files st).targetIndex =
        st.targetIndex ∧
      (copyOrganizedFiles sourceHashes destOf files st).targetFiles =
        st.targetFiles := by
  intro files
  induction files with
  | nil => intro st _; exact ⟨rfl, rfl, rfl⟩
  | cons f fs ih =>
    intro st hall
    have hstep : (copyStep sourceHashes destOf st f).copiedCount = st.copiedCount ∧
        (copyStep sourceHashes destOf st f).targetIndex = st.targetIndex ∧
        (copyStep sourceHashes destOf st f).targetFiles = st.targetFiles := by
      cases hget : mapGet sourceHashes f.path with
      | none => simp [copyStep, hget]
      | some fp =>
        have hk := hall f (List.mem_cons_self _ _) fp hget
        simp [copyStep, hget, hk]
    have ihr := ih (copyStep sourceHashes destOf st f) fun x hx fp hget => by
      rw [hstep.2.1]; exact hall x (List.mem_cons_of_mem _ hx) fp hget
    rw [copyOrganizedFiles_cons]
    exact ⟨by rw [ihr.1, hstep.1], by rw [ihr.2.1, hstep.2.1],
      by rw [ihr.2.2, hstep.2.2]⟩

/-- C2: running the merge twice against the same source and target
copies zero files on the second run.  After the first run, each
fingerprintable source file's fingerprint is a key of the target index
rebuilt at the start of the second run, so the second run skips every
source file and changes nothing.  The cache arguments may be any
coherent snapshots, the empty (cold) cache included. -/
theorem merge_idempotent (md5 : List (String × String) → String)
    (destOf1 destOf2 : String → String) (source target0 : List MFile)
    (cache1 cache2 : List (String × CacheEntry))
    (modOf1 modOf2 : String → Option Nat)
    (hnd : (source.map MFile.path).Nodup)
    (hco1 : cacheCoherent md5 cache1 modOf1 target0)
    (hco2 : cacheCoherent md5 cache2 modOf2
      (mergeRun md5 destOf1 source cache1 modOf1 target0).targetFiles) :
    (∀ f ∈ source, ∀ fp, fingerprintOf md5 f = some fp →
      hasKey (buildTargetHashDatabase md5 cache2 modOf2
        (mergeRun md5 destOf1 source cache1 modOf1 target0).targetFiles) fp =
        true) ∧
    (mergeRun md5 destOf2 source cache2 modOf2
      (mergeRun md5 destOf1 source cache1 modOf1 target0).targetFiles).copiedCount
      = 0 ∧
    (mergeRun md5 destOf2 source cache2 modOf2
      (mergeRun md5 destOf1 source cache1 modOf1 target0).targetFiles).targetFiles
      = (mergeRun md5 destOf1 source cache1 modOf1 target0).targetFiles := by
  have hsh : ∀ f ∈ source,
      mapGet (buildHashDatabase md5 source) f.path = fingerprintOf md5 f :=
    fun f hf => mapGet_buildHashDatabase md5 source f hf hnd
  have hpart1 : ∀ f ∈ source, ∀ fp, fingerprintOf md5 f = some fp →
      hasKey (buildTargetHashDatabase md5 cache2 modOf2
        (mergeRun md5 destOf1 source cache1 modOf1 target0).targetFiles) fp =
        true := by
    intro f hf fp hfp
    have hkey1 : hasKey
        (mergeRun md5 destOf1 source cache1 modOf1 target0).targetIndex fp =
        true := by
      refine copyLoop_keys_complete (buildHashDatabase md5 source) destOf1
        source _ f fp hf ?_
      rw [hsh f hf]; exact hfp
    have hcov1 : ∃ g ∈ (mergeRun md5 destOf1 source cache1 modOf1
        target0).targetFiles, fingerprintOf md5 g = some fp := by
      refine copyLoop_covered md5 (buildHashDatabase md5 source) destOf1
        source _ hsh ?_ fp hkey1
      intro a ha
      exact buildTarget_covered md5 cache1 modOf1 target0 hco1 a ha
    obtain ⟨g, hgmem, hgfp⟩ := hcov1
    exact buildTarget_complete md5 cache2 modOf2 _ hco2 g fp hgmem hgfp
  refine ⟨hpart1, ?_, ?_⟩
  · have hz := copyLoop_all_skips (buildHashDatabase md5 source) destOf2 source
      ⟨buildTargetHashDatabase md5 cache2 modOf2
        (mergeRun md5 destOf1 source cache1 modOf1 target0).targetFiles,
        (mergeRun md5 destOf1 source cache1 modOf1 target0).targetFiles, 0, []⟩
      (fun f hf fp hget => hpart1 f hf fp (by rw [← hsh f hf]; exact hget))
    exact hz.1
  · have hz := copyLoop_all_skips (buildHashDatabase md5 source) destOf2 source
      ⟨buildTargetHashDatabase md5 cache2 modOf2
        (mergeRun md5 destOf1 source cache1 modOf1 target0).targetFiles,
        (mergeRun md5 destOf1 source cache1 modOf1 target0).targetFiles, 0, []⟩
      (fun f hf fp hget => hpart1 f hf fp (by rw [← hsh f hf]; exact hget))
    exact hz.2.2

/-- C2 witness: one source file of size 5 merged into an empty target
twice: the second run copies nothing. -/
theorem merge_idempotent_witness :
    (mergeRun (fun _ => "") id [⟨"s/a.jpg", some (5, .err)⟩] []
      (fun _ => none)
      (mergeRun (fun _ => "") id [⟨"s/a.jpg", some (5, .err)⟩] []
        (fun _ => none) []).targetFiles).copiedCount = 0 :=
  (merge_idempotent (fun _ => "") id id [⟨"s/a.jpg", some (5, .err)⟩] [] [] []
    (fun _ => none) (fun _ => none) (by decide)
    (fun f _ e he => by simp [mapGet, List.find?] at he)
    (fun f _ e he => by simp [mapGet, List.find?] at he)).2.1

/-! ### Unique-Filename Rule (batch-processor.js: findUniqueFilename;
organizer.js: generateNewPath).  The filesystem existence check is an
explicit predicate; the loops take fuel, with none meaning the loop is
still running after that many iterations. -/

/-- String(n).padStart(3, the zero character). -/
def padStart3 (s : String) : String :=
  if s.length ≥ 3 then s else ⟨List.replicate (3 - s.length) '0' ++ s.data⟩

/-- The zero-padded counter segment of generated names. -/
def pad3 (n : Nat) : String := padStart3 (natToString n)

/-- path.join of a directory and a file name. -/
def joinPath (dir name : String) : String := dir ++ "/" ++ name

/-- Anchored match of a base name against the date-counter regex of
findUniqueFilename: four digits, dash, two digits, dash, two digits,
underscore, exactly three digits, end.  Returns the ten date characters
and the numeric counter. -/
def matchDateCounterName : List Char → Option (List Char × Nat)
  | [y1, y2, y3, y4, '-', m1, m2, '-', d1, d2, '_', n1, n2, n3] =>
    if isDigitCh y1 && isDigitCh y2 && isDigitCh y3 && isDigitCh y4 &&
       isDigitCh m1 && isDigitCh m2 && isDigitCh d1 && isDigitCh d2 &&
       isDigitCh n1 && isDigitCh n2 && isDigitCh n3
    then some ([y1, y2, y3, y4, '-', m1, m2, '-', d1, d2],
               digitVal n1 * 100 + digitVal n2 * 10 + digitVal n3)
    else none
  | _ => none

/-- The candidate name the non-matching branch of findUniqueFilename
probes at a given counter. -/
def plainCandidate (dir baseName ext : String) (c : Nat) : String :=
  joinPath dir (baseName ++ "_" ++ pad3 c ++ ext)

/-- The candidate name the date branch of findUniqueFilename probes at
a given counter. -/
def dateCandidate (dir ext : String) (dc : List Char) (c : Nat) : String :=
  joinPath dir ((⟨dc⟩ : String) ++ "_" ++ pad3 c ++ ext)

/-- The while loop of the non-matching branch: probe the name at the
current counter and advance until a free name appears.  No ceiling is
checked. -/
def findUniquePlainLoop (fsExists : String → Bool) (dir baseName ext : String) :
    Nat → Nat → Option String
  | 0, _ => none
  | fuel + 1, counter =>
    if fsExists (plainCandidate dir baseName ext counter) then
      findUniquePlainLoop fsExists dir baseName ext fuel (counter + 1)
    else some (plainCandidate dir baseName ext counter)

/-- The while-true loop of the date branch: increment the counter, then
return the new name as soon as it is free.  No ceiling is checked. -/
def findUniqueDateLoop (fsExists : String → Bool) (dir ext : String)
    (dc : List Char) : Nat → Nat → Option String
  | 0, _ => none
  | fuel + 1, counter =>
    if fsExists (dateCandidate dir ext dc (counter + 1)) then
      findUniqueDateLoop fsExists dir ext dc fuel (counter + 1)
    else some (dateCandidate dir ext dc (counter + 1))

/-- findUniqueFilename: return the target path if it is free; otherwise
resolve the collision with the date-counter loop when the base name
matches the date pattern (continuing from the parsed counter), else
with the append-counter loop starting at one. -/
def findUniqueFilename (fsExists : String → Bool) (dir baseName ext : String)
    (fuel : Nat) : Option String :=
  let targetPath := joinPath dir (baseName ++ ext)
  if !fsExists targetPath then some targetPath
  else
    match matchDateCounterName baseName.data with
    | none => findUniquePlainLoop fsExists dir baseName ext fuel 1
    | some (dc, counter) => findUniqueDateLoop fsExists dir ext dc fuel counter

/-- The collision loop of generateNewPath: while the candidate exists
and differs from the original path, advance the counter, failing hard
once the counter passes 9999. -/
def generateNewPathLoop (fsExists : String → Bool)
    (originalPath targetDir baseFilename ext : String) :
    Nat → Nat → Option (Except String String)
  | 0, _ => none
  | fuel + 1, counter =>
    let newPath := joinPath targetDir (baseFilename ++ "_" ++ pad3 counter ++ ext)
    if fsExists newPath && decide (newPath ≠ originalPath) then
      if counter + 1 > 9999 then some (.error "too many conflicts")
      else generateNewPathLoop fsExists originalPath targetDir baseFilename ext
        fuel (counter + 1)
    else some (.ok newPath)

/-- The collision-resolution part of generateNewPath, from the initial
counter one. -/
def generateNewPath (fsExists : String → Bool)
    (originalPath targetDir baseFilename ext : String) (fuel : Nat) :
    Option (Except String String) :=
  generateNewPathLoop fsExists originalPath targetDir baseFilename ext fuel 1

theorem findUniqueDateLoop_allExists (dir ext : String) (dc : List Char) :
    ∀ (fuel counter : Nat),
      findUniqueDateLoop (fun _ => true) dir ext dc fuel counter = none
  | 0, _ => rfl
  | fuel + 1, c => by
    simp only [findUniqueDateLoop, if_pos]
    exact findUniqueDateLoop_allExists dir ext dc fuel (c + 1)

/-- A filesystem state on which the collision loop never exits. -/
def findUniqueLoopsForever (fsExists : String → Bool)
    (dir baseName ext : String) : Prop :=
  ∀ fuel, findUniqueFilename fsExists dir baseName ext fuel = none

/-- C3 counterexample: findUniqueFilename has no conflict ceiling at
all.  When every probed candidate exists, the loop runs forever: for
every iteration budget it is still running, and no too-many-conflicts
failure is ever produced (the function has no failure outcome), against
the claim that a hard failure is raised past 9999 attempts rather than
looping unboundedly. -/
theorem findUniqueFilename_no_ceiling :
    findUniqueLoopsForever (fun _ => true) "/t" "2023-01-15_001" ".jpg" := by
  intro fuel
  have hm : matchDateCounterName ("2023-01-15_001" : String).data =
      some (("2023-01-15" : String).data, 1) := by decide
  simp only [findUniqueFilename, hm, Bool.not_true, if_neg]
  exact findUniqueDateLoop_allExists "/t" ".jpg" _ fuel 1

theorem findUniqueDateLoop_finds (fsExists : String → Bool) (dir ext : String)
    (dc : List Char) :
    ∀ (fuel counter k : Nat), counter < k → k - counter ≤ fuel →
      fsExists (dateCandidate dir ext dc k) = false →
      (∀ j, counter < j → j < k → fsExists (dateCandidate dir ext dc j) = true) →
      findUniqueDateLoop fsExists dir ext dc fuel counter =
        some (dateCandidate dir ext dc k)
  | 0, counter, k, hlt, hfu, _, _ => by omega
  | fuel + 1, counter, k, hlt, hfu, hfree, hocc => by
    by_cases hk : counter + 1 = k
    · subst hk
      simp [findUniqueDateLoop, hfree]
    · have h1 : counter + 1 < k := by omega
      have hocc1 : fsExists (dateCandidate dir ext dc (counter + 1)) = true :=
        hocc (counter + 1) (by omega) h1
      simp only [findUniqueDateLoop, hocc1, if_pos]
      exact findUniqueDateLoop_finds fsExists dir ext dc fuel (counter + 1) k h1
        (by omega) hfree fun j hj1 hj2 => hocc j (by omega) hj2

theorem findUniquePlainLoop_finds (fsExists : String → Bool)
    (dir baseName ext : String) :
    ∀ (fuel counter k : Nat), counter ≤ k → k - counter < fuel →
      fsExists (plainCandidate dir baseName ext k) = false →
      (∀ j, counter ≤ j → j < k →
        fsExists (plainCandidate dir baseName ext j) = true) →
      findUniquePlainLoop fsExists dir baseName ext fuel counter =
        some (plainCandidate dir baseName ext k)
  | 0, counter, k, _, hfu, _, _ => by omega
  | fuel + 1, counter, k, hle, hfu, hfree, hocc => by
    by_cases hk : counter = k
    · subst hk
      simp [findUniquePlainLoop, hfree]
    · have h1 : counter < k := by omega
      have hocc1 : fsExists (plainCandidate dir baseName ext counter) = true :=
        hocc counter (Nat.le_refl _) h1
      simp only [findUniquePlainLoop, hocc1, if_pos]
      exact findUniquePlainLoop_finds fsExists dir baseName ext fuel
        (counter + 1) k h1 (by omega) hfree fun j hj1 hj2 => hocc j (by omega) hj2

theorem generateNewPathLoop_total (fsExists : String → Bool)
    (originalPath targetDir baseFilename ext : String) :
    ∀ (fuel counter : Nat), 1 ≤ fuel → 10000 ≤ counter + fuel →
      (generateNewPathLoop fsExists originalPath targetDir baseFilename ext
        fuel counter).isSome = true
  | 0, _, hfu, _ => by omega
  | fuel + 1, counter, _, hsum => by
    simp only [generateNewPathLoop]
    by_cases hocc : (fsExists
        (joinPath targetDir (baseFilename ++ "_" ++ pad3 counter ++ ext)) &&
        decide ((joinPath targetDir
          (baseFilename ++ "_" ++ pad3 counter ++ ext)) ≠ originalPath)) = true
    · rw [if_pos hocc]
      by_cases hc : counter + 1 > 9999
      · rw [if_pos hc]; rfl
      · rw [if_neg hc]
        exact generateNewPathLoop_total fsExists originalPath targetDir
          baseFilename ext fuel (counter + 1) (by omega) (by omega)
    · rw [if_neg hocc]; rfl

theorem joinPath_ne_empty (dir name : String) : joinPath dir name ≠ "" := by
  intro h
  have hd := congrArg String.data h
  simp only [joinPath, String.data_append] at hd
  have hlen := congrArg List.length hd
  simp [List.length_append] at hlen

theorem generateNewPathLoop_allExists_error
    (targetDir baseFilename ext : String) :
    ∀ (fuel counter : Nat), counter ≤ 9999 → 10000 - counter ≤ fuel →
      generateNewPathLoop (fun _ => true) "" targetDir baseFilename ext
        fuel counter = some (.error "too many conflicts")
  | 0, counter, hc, hfu => by omega
  | fuel + 1, counter, hc, hfu => by
    simp only [generateNewPathLoop]
    have hne : (joinPath targetDir (baseFilename ++ "_" ++ pad3 counter ++ ext))
        ≠ "" := joinPath_ne_empty _ _
    rw [if_pos (by simp [hne])]
    by_cases hcc : counter + 1 > 9999
    · rw [if_pos hcc]
    · rw [if_neg hcc]
      exact generateNewPathLoop_allExists_error targetDir baseFilename ext fuel
        (counter + 1) (by omega) (by omega)

/-- C3 amended: the two collision loops are deterministic and return
the first free candidate past their starting counter whenever one
exists, and generateNewPath enforces the 9999 ceiling: its loop always
yields an answer (a free name or the hard too-many-conflicts error)
within 10000 iterations, and raises that error when every candidate is
taken.  findUniqueFilename itself checks no ceiling: on an
all-candidates-taken filesystem it loops unboundedly (the separate
counterexample theorem) instead of failing hard. -/
theorem unique_filename_convergence :
    (∀ (fsExists : String → Bool) (dir ext : String) (dc : List Char)
      (fuel counter k : Nat), counter < k → k - counter ≤ fuel →
      fsExists (dateCandidate dir ext dc k) = false →
      (∀ j, counter < j → j < k → fsExists (dateCandidate dir ext dc j) = true) →
      findUniqueDateLoop fsExists dir ext dc fuel counter =
        some (dateCandidate dir ext dc k)) ∧
    (∀ (fsExists : String → Bool) (dir baseName ext : String)
      (fuel counter k : Nat), counter ≤ k → k - counter < fuel →
      fsExists (plainCandidate dir baseName ext k) = false →
      (∀ j, counter ≤ j → j < k →
        fsExists (plainCandidate dir baseName ext j) = true) →
      findUniquePlainLoop fsExists dir baseName ext fuel counter =
        some (plainCandidate dir baseName ext k)) ∧
    (∀ (fsExists : String → Bool) (originalPath targetDir baseFilename ext : String)
      (fuel counter : Nat), 1 ≤ fuel → 10000 ≤ counter + fuel →
      (generateNewPathLoop fsExists originalPath targetDir baseFilename ext
        fuel counter).isSome = true) ∧
    (∀ (targetDir baseFilename ext : String) (fuel counter : Nat),
      counter ≤ 9999 → 10000 - counter ≤ fuel →
      generateNewPathLoop (fun _ => true) "" targetDir baseFilename ext
        fuel counter = some (.error "too many conflicts")) :=
  ⟨findUniqueDateLoop_finds, findUniquePlainLoop_finds,
   generateNewPathLoop_total, generateNewPathLoop_allExists_error⟩

/-- C3 amended witness: the date loop skips the taken counter 2 and
returns the counter-3 name; generateNewPath yields an answer within
the ceiling and fails hard on a full directory. -/
theorem unique_filename_convergence_witness :
    findUniqueDateLoop (fun _ => false) "/t" ".jpg" ("2023-01-15".data) 1 1 =
      some (dateCandidate "/t" ".jpg" ("2023-01-15".data) 2) ∧
    (generateNewPath (fun _ => true) "" "/t" "2023-01-15" ".jpg" 10000).isSome =
      true ∧
    generateNewPathLoop (fun _ => true) "" "/t" "b" ".jpg" 1 9999 =
      some (.error "too many conflicts") := by
  refine ⟨?_, ?_, ?_⟩
  · refine unique_filename_convergence.1 _ "/t" ".jpg" _ 1 1 2 (by decide)
      (by decide) rfl ?_
    intro j h1 h2
    omega
  · exact unique_filename_convergence.2.2.1 _ "" "/t" "2023-01-15" ".jpg"
      10000 1 (by decide) (by decide)
  · exact unique_filename_convergence.2.2.2 "/t" "b" ".jpg" 1 9999
      (by decide) (by decide)

/-! ### C4: video fingerprinting in the standalone dedup pass versus
the merge (organizer.js: findDuplicatesByDateAndSize;
batch-processor.js: buildHashDatabase). -/

/-- A file as the standalone video dedup pass observes it: path, file
stem (base name without extension) and byte size. -/
structure VFile where
  path : String
  stem : String
  size : Nat
deriving DecidableEq

def videoFingerprintOf (f : VFile) : Option String :=
  createVideoFingerprint f.size f.stem

/-- One iteration of the grouping loop of findDuplicatesByDateAndSize:
files without a valid fingerprint are skipped; the rest are appended to
the bucket of their fingerprint. -/
def videoGroupStep (m : List (String × List VFile)) (f : VFile) :
    List (String × List VFile) :=
  match videoFingerprintOf f with
  | none => m
  | some fp =>
    match mapGet m fp with
    | none => mapSet m fp [f]
    | some l => mapSet m fp (l ++ [f])

/-- findDuplicatesByDateAndSize: group the video files by fingerprint
and keep the buckets that hold more than one file. -/
def findDuplicatesByDateAndSize (files : List VFile) : List (List VFile) :=
  ((files.foldl videoGroupStep []).map Prod.snd).filter fun l =>
    decide (l.length > 1)

theorem mem_mapSet {α : Type} {m : List (String × α)} {k : String} {v : α}
    {p : String × α} (h : p ∈ mapSet m k v) : p = (k, v) ∨ p ∈ m := by
  induction m with
  | nil => simpa [mapSet] using h
  | cons kv m ih =>
    by_cases hk : kv.1 = k
    · simp only [mapSet, if_pos hk, List.mem_cons] at h
      rcases h with h | h
      · exact Or.inl h
      · exact Or.inr (List.mem_cons_of_mem _ h)
    · simp only [mapSet, if_neg hk, List.mem_cons] at h
      rcases h with h | h
      · exact Or.inr (by simp [h])
      · rcases ih h with h2 | h2
        · exact Or.inl h2
        · exact Or.inr (List.mem_cons_of_mem _ h2)

/-- Invariant of the grouping loop: every filed-away member has a valid
video fingerprint. -/
theorem videoGroup_members_fingerprintable :
    ∀ (files : List VFile) (m : List (String × List VFile)),
      (∀ p ∈ m, ∀ x ∈ p.2, (videoFingerprintOf x).isSome = true) →
      ∀ p ∈ files.foldl videoGroupStep m, ∀ x ∈ p.2,
        (videoFingerprintOf x).isSome = true
  | [], _, hm => hm
  | f :: fs, m, hm => by
    rw [List.foldl_cons]
    refine videoGroup_members_fingerprintable fs _ ?_
    intro p hp x hx
    cases hfp : videoFingerprintOf f with
    | none =>
      simp only [videoGroupStep, hfp] at hp
      exact hm p hp x hx
    | some fp =>
      cases hget : mapGet m fp with
      | none =>
        simp only [videoGroupStep, hfp, hget] at hp
        rcases mem_mapSet hp with rfl | hp2
        · rcases List.mem_singleton.mp hx with rfl
          simp [hfp]
        · exact hm p hp2 x hx
      | some l =>
        simp only [videoGroupStep, hfp, hget] at hp
        rcases mem_mapSet hp with rfl | hp2
        · rcases List.mem_append.mp hx with hx2 | hx2
          · have hget2 : (m.find? fun kv => decide (kv.1 = fp)).map
                (fun q => q.2) = some l := hget
            obtain ⟨pr, hfind, hsnd2⟩ := Option.map_eq_some'.mp hget2
            exact hm pr (List.mem_of_find?_eq_some hfind) x
              (by rw [hsnd2]; exact hx2)
          · rcases List.mem_singleton.mp hx2 with rfl
            simp [hfp]
        · exact hm p hp2 x hx

/-- C4 counterexample: a video file whose stem has no date pattern is
excluded by createVideoFingerprint, yet the merge does fingerprint it:
buildHashDatabase hashes it through createFileFingerprint to the
size-plus-sentinel fingerprint, and the copy loop then deduplicates a
second dateless video of the same size against it. -/
theorem video_fingerprint_merge_counterexample :
    createVideoFingerprint 100 "myvideo" = none ∧
    mapGet (buildHashDatabase (fun _ => "")
        [⟨"dir/myvideo.mp4", some (100, .err)⟩]) "dir/myvideo.mp4" =
      some "100-no-exif" ∧
    (copyOrganizedFiles
        (buildHashDatabase (fun _ => "")
          [⟨"dir/myvideo.mp4", some (100, .err)⟩,
           ⟨"dir/other.mp4", some (100, .err)⟩])
        (fun p => p)
        [⟨"dir/myvideo.mp4", some (100, .err)⟩,
         ⟨"dir/other.mp4", some (100, .err)⟩]
        ⟨[], [], 0, []⟩).actions =
      [.copy "dir/myvideo.mp4" "dir/myvideo.mp4",
       .skipDuplicate "dir/other.mp4"] := by
  refine ⟨rfl, by decide, by decide⟩

/-- C4 amended: the video fingerprint form (size, the video marker and
the filename date) and the exclusion of dateless videos hold in the
standalone video dedup pass: createVideoFingerprint yields the
size-video-date string exactly for stems with a valid anchored date and
none otherwise, and findDuplicatesByDateAndSize puts only
fingerprintable files into duplicate groups.  The merge does not use
this rule: buildHashDatabase fingerprints every file, videos included,
through createFileFingerprint on size and metadata alone. -/
theorem video_fingerprint_scope
    (size : Nat) (stem : String) (y m d : Nat) (dc : List Char)
    (md5 : List (String × String) → String) (p : String)
    (meta : MetaResult) :
    (matchVideoStem stem.data = none → createVideoFingerprint size stem = none) ∧
    (matchVideoStem stem.data = some (y, m, d, dc) →
      validateAndCreateDate y m d = none →
      createVideoFingerprint size stem = none) ∧
    (matchVideoStem stem.data = some (y, m, d, dc) →
      (validateAndCreateDate y m d).isSome = true →
      createVideoFingerprint size stem =
        some (natToString size ++ "-video-" ++ ⟨dc⟩)) ∧
    (∀ (files : List VFile) (f : VFile), videoFingerprintOf f = none →
      ∀ g ∈ findDuplicatesByDateAndSize files, f ∉ g) ∧
    fingerprintOf md5 ⟨p, some (size, meta)⟩ =
      some (createFileFingerprint md5 size meta) := by
  refine ⟨?_, ?_, ?_, ?_, rfl⟩
  · intro hm
    simp [createVideoFingerprint, hm]
  · intro hm hv
    simp [createVideoFingerprint, hm, hv]
  · intro hm hv
    obtain ⟨dt, hdt⟩ := Option.isSome_iff_exists.mp hv
    simp [createVideoFingerprint, hm, hdt]
  · intro files f hf g hg hmem
    unfold findDuplicatesByDateAndSize at hg
    have hg2 := List.mem_of_mem_filter hg
    obtain ⟨pair, hpair, hsnd⟩ := List.mem_map.mp hg2
    have := videoGroup_members_fingerprintable files [] (by simp) pair hpair f
      (by rw [hsnd]; exact hmem)
    rw [hf] at this
    simp at this

/-- C4 amended witness: a dated stem gets the size-video-date
fingerprint, a dateless one is excluded from the standalone pass. -/
theorem video_fingerprint_scope_witness :
    createVideoFingerprint 100 "2023-01-15_001" =
      some (natToString 100 ++ "-video-" ++ ⟨("2023-01-15" : String).data⟩) ∧
    createVideoFingerprint 100 "myvideo" = none :=
  ⟨(video_fingerprint_scope 100 "2023-01-15_001" 2023 1 15
      ("2023-01-15" : String).data (fun _ => "") "p" .err).2.2.1
    (by decide) (by decide),
   (video_fingerprint_scope 100 "myvideo" 0 0 0 [] (fun _ => "") "p"
      .err).1 (by decide)⟩

/-! ### C10: filename date extraction (organizer.js:
extractDateFromFilename, validateAndCreateDate). -/

/-- One position of the filename date regex: the literal two-zero
prefix, then the year tail (09, 1 with any digit, or 2 with zero to
five), a month 01 to 12 and a day 01 to 31, matching the source
alternations character by character. -/
def matchDate8 (c0 c1 c2 c3 c4 c5 c6 c7 : Char) : Bool :=
  decide (c0 = '2') && decide (c1 = '0') &&
  ((decide (c2 = '0') && decide (c3 = '9')) ||
   (decide (c2 = '1') && isDigitCh c3) ||
   (decide (c2 = '2') && decide ('0' ≤ c3) && decide (c3 ≤ '5'))) &&
  ((decide (c4 = '0') && decide ('1' ≤ c5) && decide (c5 ≤ '9')) ||
   (decide (c4 = '1') && decide ('0' ≤ c5) && decide (c5 ≤ '2'))) &&
  ((decide (c6 = '0') && decide ('1' ≤ c7) && decide (c7 ≤ '9')) ||
   ((decide (c6 = '1') || decide (c6 = '2')) && isDigitCh c7) ||
   (decide (c6 = '3') && (decide (c7 = '0') || decide (c7 = '1'))))

/-- Leftmost match of the eight-character date pattern in a stem,
as the regex search finds it. -/
def findDatePattern : List Char → Option (Nat × Nat × Nat)
  | [] => none
  | c0 :: rest =>
    match rest with
    | c1 :: c2 :: c3 :: c4 :: c5 :: c6 :: c7 :: _ =>
      if matchDate8 c0 c1 c2 c3 c4 c5 c6 c7 then
        some (digitVal c0 * 1000 + digitVal c1 * 100 + digitVal c2 * 10 +
                digitVal c3,
              digitVal c4 * 10 + digitVal c5,
              digitVal c6 * 10 + digitVal c7)
      else findDatePattern rest
    | _ => none

/-- extractDateFromFilename: find the first date pattern in the stem
and validate it; no date, or a rolled-over date, yields none. -/
def extractDateFromFilename (stem : String) : Option CivilDate :=
  match findDatePattern stem.data with
  | none => none
  | some (y, m, d) => validateAndCreateDate y m d

/-- The date-or-mtime choice of processVideoOrPatternFile: the filename
date when one is extracted, else the file modification time. -/
def videoCreationDate (stem : String) (mtime : CivilDate) : CivilDate :=
  match extractDateFromFilename stem with
  | some d => d
  | none => mtime

theorem daysInMonth_le_31 (y m : Nat) : daysInMonth y m ≤ 31 := by
  unfold daysInMonth
  split_ifs <;> omega

/-- validateAndCreateDate answers exactly the calendar-valid triples in
the 2009 to 2025 window, and returns the triple itself. -/
theorem validateAndCreateDate_spec (y m d : Nat) (dt : CivilDate) :
    validateAndCreateDate y m d = some dt ↔
      (dt = ⟨y, m, d⟩ ∧ 2009 ≤ y ∧ y ≤ 2025 ∧ 1 ≤ m ∧ m ≤ 12 ∧ 1 ≤ d ∧
        d ≤ daysInMonth y m) := by
  have hdim := daysInMonth_le_31 y m
  unfold validateAndCreateDate jsDateOf
  constructor
  · intro h
    by_cases h1 : y < 2009 ∨ 2025 < y
    · rw [if_pos h1] at h; cases h
    rw [if_neg h1] at h
    by_cases h2 : m < 1 ∨ 12 < m
    · rw [if_pos h2] at h; cases h
    rw [if_neg h2] at h
    by_cases h3 : d < 1 ∨ 31 < d
    · rw [if_pos h3] at h; cases h
    rw [if_neg h3] at h
    by_cases hd : d ≤ daysInMonth y m
    · rw [if_pos hd] at h
      simp only [if_pos (And.intro rfl (And.intro rfl rfl))] at h
      injection h with hdt
      exact ⟨hdt.symm, by omega⟩
    · rw [if_neg hd] at h
      by_cases hm12 : m = 12
      · rw [if_pos hm12] at h
        rw [if_neg (fun hc => Nat.succ_ne_self y hc.1)] at h
        cases h
      · rw [if_neg hm12] at h
        rw [if_neg (fun hc => Nat.succ_ne_self m hc.2.1)] at h
        cases h
  · rintro ⟨rfl, hy1, hy2, hm1, hm2, hd1, hd2⟩
    rw [if_neg (by omega), if_neg (by omega), if_neg (by omega),
      if_pos hd2, if_pos ⟨rfl, rfl, rfl⟩]

/-- C10: filename date extraction yields only calendar-valid dates with
year 2009 to 2025 — validateAndCreateDate succeeds exactly on triples
in the window whose day fits the month (leap years respected), every
date extractDateFromFilename produces satisfies those bounds, a failed
validation excludes the video from fingerprinting, and a video without
an extracted date falls back to its modification time. -/
theorem filename_date_validation :
    (∀ (y m d : Nat) (dt : CivilDate),
      validateAndCreateDate y m d = some dt ↔
        (dt = ⟨y, m, d⟩ ∧ 2009 ≤ y ∧ y ≤ 2025 ∧ 1 ≤ m ∧ m ≤ 12 ∧ 1 ≤ d ∧
          d ≤ daysInMonth y m)) ∧
    (∀ (stem : String) (dt : CivilDate),
      extractDateFromFilename stem = some dt →
        2009 ≤ dt.year ∧ dt.year ≤ 2025 ∧ 1 ≤ dt.month ∧ dt.month ≤ 12 ∧
        1 ≤ dt.day ∧ dt.day ≤ daysInMonth dt.year dt.month) ∧
    (∀ (size y m d : Nat) (stem : String) (dc : List Char),
      matchVideoStem stem.data = some (y, m, d, dc) →
      validateAndCreateDate y m d = none →
      createVideoFingerprint size stem = none) ∧
    (∀ (stem : String) (mtime : CivilDate),
      extractDateFromFilename stem = none →
        videoCreationDate stem mtime = mtime) := by
  refine ⟨validateAndCreateDate_spec, ?_, ?_, ?_⟩
  · intro stem dt h
    unfold extractDateFromFilename at h
    cases hfind : findDatePattern stem.data with
    | none => rw [hfind] at h; cases h
    | some t =>
      obtain ⟨y, m, d⟩ := t
      rw [hfind] at h
      obtain ⟨rfl, hb⟩ := (validateAndCreateDate_spec y m d dt).mp h
      exact hb
  · intro size y m d stem dc hm hv
    simp [createVideoFingerprint, hm, hv]
  · intro stem mtime h
    simp [videoCreationDate, h]

/-- C10 witness: the stem IMG_20230115_x yields January 15, 2023, and
February 29, 2023 is rejected while February 29, 2024 is accepted. -/
theorem filename_date_validation_witness :
    (extractDateFromFilename "IMG_20230115_x" = some ⟨2023, 1, 15⟩ ∧
      2009 ≤ (2023 : Nat) ∧ (15 : Nat) ≤ daysInMonth 2023 1) ∧
    validateAndCreateDate 2023 2 29 = none ∧
    validateAndCreateDate 2024 2 29 = some ⟨2024, 2, 29⟩ := by
  refine ⟨⟨by decide, ?_, ?_⟩, by decide, by decide⟩
  · exact (filename_date_validation.2.1 "IMG_20230115_x" ⟨2023, 1, 15⟩
      (by decide)).1
  · exact (filename_date_validation.2.1 "IMG_20230115_x" ⟨2023, 1, 15⟩
      (by decide)).2.2.2.2.2

end MediaOrg
